import Mathlib

/-!
Verification of the GEO-INQUIRE audio processing pipeline
(geo_inquire_processor: processor.py, gui.py, config.py).

The Python source is shallowly embedded: sample data becomes lists of
rationals (exact arithmetic in place of IEEE floats), machine integers
become Nat/Int with explicit wrapping where the code can overflow,
filesystem effects become explicit lists of file names, and the external
collaborators (scipy lfilter/resample, the codec, dateutil) become
function parameters constrained only by their documented contracts.
-/

namespace GeoInquire

/-! ## Configuration constants (config.py) -/

/-- Final sampling rate for downsampling, in Hz (config.py line 9). -/
def FINAL_SAMPLING_RATE : Nat := 300

/-! ## Generic list helpers used by the embedding -/

/-- Worker for chunksOf, structurally recursive on a fuel bound so that
it reduces inside the kernel; the fuel is always at least the length of
the list, so the fuel-exhausted branch is never reached. -/
def chunksOfAux (cs : Nat) : Nat → List α → List (List α)
  | _, [] => []
  | 0, x :: xs => [x :: xs]
  | fuel + 1, x :: xs => (x :: xs.take (cs - 1)) :: chunksOfAux cs fuel (xs.drop (cs - 1))

/-- Split a list into consecutive chunks of size cs (cs is positive in
every use; the size-0 case degenerates to chunks of one element so the
function stays total).  Models the loop
for i in range(0, len(filtered_data), chunk_size) in downsample_wav. -/
def chunksOf (cs : Nat) (xs : List α) : List (List α) := chunksOfAux cs xs.length xs

theorem chunksOfAux_fuel_irrel (cs : Nat) :
    ∀ (f₁ : Nat) (l : List α) (f₂ : Nat), l.length ≤ f₁ → l.length ≤ f₂ →
      chunksOfAux cs f₁ l = chunksOfAux cs f₂ l := by
  intro f₁
  induction f₁ with
  | zero =>
    intro l f₂ h1 _
    have : l = [] := List.length_eq_zero.mp (Nat.le_zero.mp h1)
    subst this
    cases f₂ <;> rfl
  | succ f ih =>
    intro l f₂ h1 h2
    cases l with
    | nil => cases f₂ <;> rfl
    | cons x xs =>
      cases f₂ with
      | zero => exact absurd h2 (by simp)
      | succ f₂' =>
        rw [chunksOfAux, chunksOfAux]
        have hlen : (xs.drop (cs - 1)).length ≤ xs.length := by
          simp [List.length_drop]
        have hxs1 : xs.length ≤ f := by simpa using h1
        have hxs2 : xs.length ≤ f₂' := by simpa using h2
        rw [ih (xs.drop (cs - 1)) f₂' (le_trans hlen hxs1) (le_trans hlen hxs2)]

theorem chunksOf_nil (cs : Nat) : chunksOf cs ([] : List α) = [] := rfl

theorem chunksOf_cons (cs : Nat) (x : α) (xs : List α) :
    chunksOf cs (x :: xs) = (x :: xs.take (cs - 1)) :: chunksOf cs (xs.drop (cs - 1)) := by
  show chunksOfAux cs (xs.length + 1) (x :: xs) = _
  rw [chunksOfAux]
  unfold chunksOf
  rw [chunksOfAux_fuel_irrel cs xs.length (xs.drop (cs - 1)) (xs.drop (cs - 1)).length
      (by simp [List.length_drop]) (le_refl _)]

/-- Splitting into chunks and concatenating the chunks in order gives
back the original list: the chunking covers the input exactly, in
order. -/
theorem chunksOf_flatten (cs : Nat) : ∀ xs : List α, (chunksOf cs xs).flatten = xs
  | [] => by simp [chunksOf_nil]
  | x :: xs => by
    rw [chunksOf_cons]
    simp only [List.flatten_cons, List.cons_append]
    rw [chunksOf_flatten cs (xs.drop (cs - 1)), List.take_append_drop]
termination_by xs => xs.length
decreasing_by simp [List.length_drop]; omega

/-! ## Signal conditioner: downsample_wav (processor.py lines 157-188) -/

/-- Absolute value of a rational sample (np.abs). -/
def ratAbs (x : ℚ) : ℚ := if x < 0 then -x else x

/-- Maximum absolute value of a list of samples, as computed by
np.max(np.abs(data)); 0 on the empty list. -/
def maxAbs (xs : List ℚ) : ℚ :=
  xs.foldl (fun acc x => if acc < ratAbs x then ratAbs x else acc) 0

/-- Truncation toward zero of a rational, as performed by the C cast
underlying numpy astype. -/
def ratTruncToInt (x : ℚ) : Int := if 0 ≤ x then ⌊x⌋ else -⌊-x⌋

/-- Wrap an integer into the signed 16-bit range, modelling the low 16
bits kept by an out-of-range conversion to np.int16. -/
def wrap16 (n : Int) : Int := (n + 32768) % 65536 - 32768

/-- Conversion of a scaled sample to np.int16 (truncate, then wrap). -/
def toInt16Cast (x : ℚ) : Int := wrap16 (ratTruncToInt x)

/-- Chunk size used by the chunked resampling loop (processor.py line 178). -/
def chunk_size : Nat := 1000000

/-- Shallow embedding of downsample_wav (processor.py lines 157-188).

lfilterF abstracts scipy lfilter applied with the FIR filter designed at
line 174 (an external numeric collaborator); resampleF abstracts
scipy.signal.resample, whose documented contract is that
resampleF xs n has exactly n samples.  All remaining arithmetic -
the equal-rate fast path, the max-abs normalisation, the chunking, the
per-chunk output-length computation int(len(chunk) * (target/original)),
the concatenation, and the int16 rescaling - is the code of the source,
in exact rational arithmetic.  The first component of the result is the
downsampled int16 data (as rationals), the second the filtered data. -/
def downsample_wav (lfilterF : List ℚ → List ℚ) (resampleF : List ℚ → Nat → List ℚ)
    (data : List ℚ) (original_rate : Nat)
    (target_rate : Nat := FINAL_SAMPLING_RATE) : List ℚ × List ℚ :=
  if original_rate = target_rate then (data, data)
  else
    let maxv := maxAbs data
    let m := if maxv = 0 then 1 else maxv
    let nd := data.map (fun x => x / m)
    let filtered := lfilterF nd
    let chunks := chunksOf chunk_size filtered
    let resampled :=
      (chunks.map (fun c => resampleF c (c.length * target_rate / original_rate))).flatten
    let scaled := resampled.map (fun x => ((toInt16Cast (x * 32767) : Int) : ℚ))
    (scaled, filtered)

/-! ## Theorems for claims C1 and C5 -/

/-- Claim C1 (amended): for every input sequence and rate pair with
source rate distinct from target rate, the conditioner resamples the
filtered sequence by splitting it into consecutive chunks of 1,000,000
samples, converting each chunk independently to exactly
int(chunk_length * target_rate / source_rate) output samples - the
integer part, truncating toward zero, not rounding to nearest - and
concatenating the per-chunk results in input order. -/
theorem C1_per_chunk_resampling (lf : List ℚ → List ℚ) (rf : List ℚ → Nat → List ℚ)
    (hrf : ∀ c n, (rf c n).length = n)
    (data : List ℚ) (s t : Nat) (hst : s ≠ t) :
    (chunksOf chunk_size (downsample_wav lf rf data s t).2).flatten
        = (downsample_wav lf rf data s t).2
    ∧ (downsample_wav lf rf data s t).1
        = ((chunksOf chunk_size (downsample_wav lf rf data s t).2).map
            (fun c => rf c (c.length * t / s))).flatten.map
              (fun x => ((toInt16Cast (x * 32767) : Int) : ℚ))
    ∧ (downsample_wav lf rf data s t).1.length
        = ((chunksOf chunk_size (downsample_wav lf rf data s t).2).map
            (fun c => c.length * t / s)).sum := by
  refine ⟨chunksOf_flatten _ _, ?_, ?_⟩
  · simp only [downsample_wav, if_neg hst]
  · simp only [downsample_wav, if_neg hst]
    rw [List.length_map, List.length_flatten, List.map_map]
    congr 1
    apply List.map_congr_left
    intro c _
    simp [hrf]

set_option maxRecDepth 8192 in
/-- Claim C1, counterexample to the claim as stated: on an 88-sample
input at source rate 48000 and target rate 300 the whole input is a
single chunk of length 88, the code converts it to
int(88 * 300 / 48000) = 0 output samples, while the claim demands
round(88 * 300 / 48000) = round(0.55) = 1 output samples. -/
theorem C1_counterexample :
    (chunksOf chunk_size
        (downsample_wav id (fun _ n => List.replicate n 0) (List.replicate 88 (1:ℚ)) 48000 300).2).map
          List.length
      = [88]
    ∧ (downsample_wav id (fun _ n => List.replicate n 0) (List.replicate 88 (1:ℚ)) 48000 300).1.length
        = 0
    ∧ round (((88 : ℚ) * 300) / 48000) = 1 := by
  refine ⟨by decide, by decide, ?_⟩
  norm_num [round_eq]

set_option maxRecDepth 8192 in
/-- Claim C1, witness: the amended theorem applied to a concrete
160-sample input at rates 48000 to 300, whose single chunk yields
int(160 * 300 / 48000) = 1 output sample. -/
theorem C1_witness :
    (downsample_wav id (fun _ n => List.replicate n 0) (List.replicate 160 (1:ℚ)) 48000 300).1.length
      = 1 := by
  have h := C1_per_chunk_resampling id (fun _ n => List.replicate n 0)
    (fun c n => by simp) (List.replicate 160 (1:ℚ)) 48000 300 (by decide)
  rw [h.2.2]
  decide

/-- Claim C5: when the source rate equals the target rate the
conditioner returns the input sequence unchanged for both of its
outputs, performing no normalisation, filtering, or type conversion. -/
theorem C5_noop_law (lf : List ℚ → List ℚ) (rf : List ℚ → Nat → List ℚ)
    (data : List ℚ) (rate : Nat) :
    downsample_wav lf rf data rate rate = (data, data) := by
  simp [downsample_wav]

/-! ## Timestamp inference: extract_datetime_from_filename
(processor.py lines 27-72) -/

/-- ASCII digit test, modelling the regex digit class on the filenames
this tool sees. -/
def isDigitCh (c : Char) : Bool := '0' ≤ c && c ≤ '9'

/-- Numeric value of a digit character. -/
def digitVal (c : Char) : Nat := c.toNat - '0'.toNat

/-- Word character as in the regex class backslash-w: letters, digits,
underscore. -/
def isWordCh (c : Char) : Bool := c.isAlphanum || c = '_'

/-- The separator class between date and time in both patterns: space or
underscore. -/
def sepCh (c : Char) : Bool := c = ' ' || c = '_'

/-- Models re.sub of a final dot followed by word characters with the
empty string (processor.py line 39): if the name ends in a dot followed
by one or more word characters, remove that suffix, else leave the name
unchanged. -/
def stripExtension (cs : List Char) : List Char :=
  let r := cs.reverse
  match r.dropWhile isWordCh with
  | '.' :: rest => if (r.takeWhile isWordCh).isEmpty then cs else rest.reverse
  | _ => cs

/-- The six fields of a parsed date-time. -/
structure DateTimeParts where
  year : Nat
  month : Nat
  day : Nat
  hour : Nat
  minute : Nat
  second : Nat
deriving DecidableEq

/-- Gregorian leap-year rule, as used by the datetime constructor. -/
def isLeapYear (y : Nat) : Bool := (y % 4 == 0 && y % 100 != 0) || y % 400 == 0

/-- Days in a month of a given year. -/
def daysInMonth (y m : Nat) : Nat :=
  if m = 2 then (if isLeapYear y then 29 else 28)
  else if m = 4 ∨ m = 6 ∨ m = 9 ∨ m = 11 then 30
  else 31

/-- Validity of the six parsed fields exactly as datetime.strptime
accepts them: year 1-9999, real calendar day, hour below 24, minute and
second below 60 (strptime leap seconds are rejected by the datetime
constructor the code builds). -/
def validDateTime (p : DateTimeParts) : Bool :=
  1 ≤ p.year && p.year ≤ 9999 && 1 ≤ p.month && p.month ≤ 12 &&
  1 ≤ p.day && p.day ≤ daysInMonth p.year p.month &&
  p.hour ≤ 23 && p.minute ≤ 59 && p.second ≤ 59

/-- Match of the explicit-separator pattern (processor.py line 42) at
the head of the list: four digits, dash, two digits, dash, two digits,
space or underscore, two digits, dash, two digits, dash, two digits;
anything may follow. -/
def matchExplicitAt : List Char → Option DateTimeParts
  | y1 :: y2 :: y3 :: y4 :: d1 :: m1 :: m2 :: d2 :: a1 :: a2 :: sp :: h1 :: h2 :: d3 :: n1 :: n2 :: d4 :: s1 :: s2 :: _ =>
    if isDigitCh y1 && isDigitCh y2 && isDigitCh y3 && isDigitCh y4 && d1 = '-' &&
       isDigitCh m1 && isDigitCh m2 && d2 = '-' && isDigitCh a1 && isDigitCh a2 &&
       sepCh sp && isDigitCh h1 && isDigitCh h2 && d3 = '-' && isDigitCh n1 && isDigitCh n2 &&
       d4 = '-' && isDigitCh s1 && isDigitCh s2 then
      some ⟨digitVal y1 * 1000 + digitVal y2 * 100 + digitVal y3 * 10 + digitVal y4,
            digitVal m1 * 10 + digitVal m2, digitVal a1 * 10 + digitVal a2,
            digitVal h1 * 10 + digitVal h2, digitVal n1 * 10 + digitVal n2,
            digitVal s1 * 10 + digitVal s2⟩
    else none
  | _ => none

/-- Match of the compact pattern (processor.py line 55) at the head of
the list: eight digits, space or underscore, six digits; anything may
follow. -/
def matchCompactAt : List Char → Option DateTimeParts
  | y1 :: y2 :: y3 :: y4 :: m1 :: m2 :: a1 :: a2 :: sp :: h1 :: h2 :: n1 :: n2 :: s1 :: s2 :: _ =>
    if isDigitCh y1 && isDigitCh y2 && isDigitCh y3 && isDigitCh y4 &&
       isDigitCh m1 && isDigitCh m2 && isDigitCh a1 && isDigitCh a2 &&
       sepCh sp && isDigitCh h1 && isDigitCh h2 && isDigitCh n1 && isDigitCh n2 &&
       isDigitCh s1 && isDigitCh s2 then
      some ⟨digitVal y1 * 1000 + digitVal y2 * 100 + digitVal y3 * 10 + digitVal y4,
            digitVal m1 * 10 + digitVal m2, digitVal a1 * 10 + digitVal a2,
            digitVal h1 * 10 + digitVal h2, digitVal n1 * 10 + digitVal n2,
            digitVal s1 * 10 + digitVal s2⟩
    else none
  | _ => none

/-- Leftmost match of a fixed-shape pattern, as found by re.search: try
each start position from the left, first success wins. -/
def scanFirst (f : List Char → Option α) : List Char → Option α
  | [] => none
  | c :: cs =>
    match f (c :: cs) with
    | some v => some v
    | none => scanFirst f cs

/-- Result of timestamp inference.  The parsed constructor is a
date-time recovered by tier 1 or tier 2; fuzzyOrNow name stands for the
two final external fallbacks of the source (dateutil fuzzy parsing of
name with the time zone dropped, else the current UTC instant), which
are outside the embedded arithmetic. -/
inductive InferredTimestamp where
  | parsed : DateTimeParts → InferredTimestamp
  | fuzzyOrNow : List Char → InferredTimestamp
deriving DecidableEq

/-- Tier 2 and below of the cascade (processor.py lines 55-72). -/
def compactTier (name : List Char) : InferredTimestamp :=
  match scanFirst matchCompactAt name with
  | some p => if validDateTime p then .parsed p else .fuzzyOrNow name
  | none => .fuzzyOrNow name

/-- Shallow embedding of extract_datetime_from_filename (processor.py
lines 27-72): strip the extension, try the leftmost explicit-separator
match, validate it strictly, on failure fall through to the leftmost
compact match, then to the external fuzzy/now fallbacks. -/
def extract_datetime_from_filename (filename : List Char) : InferredTimestamp :=
  let name := stripExtension filename
  match scanFirst matchExplicitAt name with
  | some p => if validDateTime p then .parsed p else compactTier name
  | none => compactTier name

/-! ## Theorems for claim C3 -/

/-- Claim C3, counterexample to the claim as stated: the filename
9999-99-99_99-99-99_2024-05-17_09-25-33_20200101_000000.wav contains
(at offset 20) an explicit-separator pattern that parses as the valid
calendar date-time 2024-05-17T09:25:33, yet inference returns
2020-01-01T00:00:00: the code only tries the leftmost explicit match
(9999-99-99_99-99-99), and when that fails strict parsing it falls
through to the compact tier instead of trying later explicit matches. -/
theorem C3_counterexample :
    extract_datetime_from_filename
        (String.toList "9999-99-99_99-99-99_2024-05-17_09-25-33_20200101_000000.wav")
      = .parsed ⟨2020,1,1,0,0,0⟩
    ∧ matchExplicitAt
        ((String.toList "9999-99-99_99-99-99_2024-05-17_09-25-33_20200101_000000.wav").drop 20)
      = some ⟨2024,5,17,9,25,33⟩
    ∧ validDateTime ⟨2024,5,17,9,25,33⟩ = true
    ∧ (DateTimeParts.mk 2020 1 1 0 0 0) ≠ ⟨2024,5,17,9,25,33⟩ := by decide

/-- Tier 2 resolves to the leftmost valid compact match. -/
theorem compactTier_parsed (name : List Char) (q : DateTimeParts)
    (hq : scanFirst matchCompactAt name = some q) (hqv : validDateTime q = true) :
    compactTier name = .parsed q := by
  simp only [compactTier, hq, hqv, if_true]

/-- Tier 2 falls through to the external fuzzy/now fallbacks when the
compact pattern has no match or its leftmost match fails strict
parsing. -/
theorem compactTier_fuzzy (name : List Char)
    (h : scanFirst matchCompactAt name = none
      ∨ ∃ q, scanFirst matchCompactAt name = some q ∧ validDateTime q = false) :
    compactTier name = .fuzzyOrNow name := by
  rcases h with h | ⟨q, hq, hqv⟩
  · simp only [compactTier, h]
  · simp only [compactTier, hq, hqv]
    simp

/-- Tier 1 falls through to the compact tier both when the explicit
pattern has no match and when its leftmost match fails strict parsing:
the code never tries a later explicit match. -/
theorem extract_falls_to_compact (fname : List Char)
    (h : scanFirst matchExplicitAt (stripExtension fname) = none
      ∨ ∃ p, scanFirst matchExplicitAt (stripExtension fname) = some p
          ∧ validDateTime p = false) :
    extract_datetime_from_filename fname = compactTier (stripExtension fname) := by
  rcases h with h | ⟨p, hp, hpv⟩
  · simp only [extract_datetime_from_filename, h]
  · simp only [extract_datetime_from_filename, hp, hpv]
    simp

/-- Claim C3 (amended): timestamp inference is a total function on
filenames and tries the tiers in strict priority order on the
extension-stripped name.  If the leftmost explicit-separator match
parses as a valid calendar date-time the result is exactly that encoded
date-time, independent of surrounding text.  Otherwise - when the
explicit pattern has no match at all, or its leftmost match fails
strict parsing - the compact tier decides: a valid leftmost compact
match is returned; and when the compact pattern has no match or its
leftmost match fails strict parsing too, the result is the external
fuzzy-parse fallback on the stripped name (current UTC instant when
that also fails). -/
theorem C3_inference_cascade (fname : List Char) :
    (∀ p, scanFirst matchExplicitAt (stripExtension fname) = some p → validDateTime p = true →
        extract_datetime_from_filename fname = .parsed p)
    ∧ ((scanFirst matchExplicitAt (stripExtension fname) = none
        ∨ ∃ p, scanFirst matchExplicitAt (stripExtension fname) = some p
            ∧ validDateTime p = false) →
      (∀ q, scanFirst matchCompactAt (stripExtension fname) = some q → validDateTime q = true →
          extract_datetime_from_filename fname = .parsed q)
      ∧ ((scanFirst matchCompactAt (stripExtension fname) = none
          ∨ ∃ q, scanFirst matchCompactAt (stripExtension fname) = some q
              ∧ validDateTime q = false) →
        extract_datetime_from_filename fname = .fuzzyOrNow (stripExtension fname))) := by
  refine ⟨?_, ?_⟩
  · intro p h1 h2
    simp only [extract_datetime_from_filename, h1, h2, if_true]
  · intro hexp
    have hc := extract_falls_to_compact fname hexp
    refine ⟨?_, ?_⟩
    · intro q hq hqv
      rw [hc, compactTier_parsed _ q hq hqv]
    · intro hcomp
      rw [hc, compactTier_fuzzy _ hcomp]

/-- Claim C3, witness: the amended theorem applied along all three
paths of the cascade - the spec example with a valid explicit match
infers 2024-05-17T09:25:33; a filename whose leftmost explicit match
9999-99-99_99-99-99 fails strict parsing falls through to the valid
compact match 20200101_000000; and a filename matching neither pattern
reaches the fuzzy/now fallback. -/
theorem C3_witness :
    extract_datetime_from_filename (String.toList "rec_2024-05-17_09-25-33_ch1.wav")
      = .parsed ⟨2024,5,17,9,25,33⟩
    ∧ extract_datetime_from_filename
        (String.toList "9999-99-99_99-99-99_x_20200101_000000.wav")
      = .parsed ⟨2020,1,1,0,0,0⟩
    ∧ extract_datetime_from_filename (String.toList "audio_file_001.wav")
      = .fuzzyOrNow (String.toList "audio_file_001") := by
  refine ⟨?_, ?_, ?_⟩
  · exact (C3_inference_cascade _).1 ⟨2024,5,17,9,25,33⟩ (by decide) (by decide)
  · exact ((C3_inference_cascade _).2
      (Or.inr ⟨⟨9999,99,99,99,99,99⟩, by decide, by decide⟩)).1
      ⟨2020,1,1,0,0,0⟩ (by decide) (by decide)
  · exact ((C3_inference_cascade _).2 (Or.inl (by decide))).2 (Or.inl (by decide))

/-! ## Time-zone offset validation (gui.py lines 507-516,
Application.start_processing) -/

/-- Python str.strip: remove leading and trailing whitespace. -/
def pyStrip (cs : List Char) : List Char :=
  ((cs.dropWhile Char.isWhitespace).reverse.dropWhile Char.isWhitespace).reverse

/-- Python str.upper on the ASCII strings this validator sees. -/
def pyUpper (cs : List Char) : List Char := cs.map Char.toUpper

/-- Decimal value of a digit string, as computed by int(). -/
def digitsToNat (ds : List Char) : Nat := ds.foldl (fun a c => a * 10 + digitVal c) 0

/-- Structure of the regex UTC([+-])(digits 1 to 2) anchored at both
ends (gui.py line 509): the literal UTC, a sign, then one or two digits
and nothing else.  Returns the sign character and the digit list. -/
def tzShape : List Char → Option (Char × List Char)
  | 'U' :: 'T' :: 'C' :: sg :: ds =>
    if (sg = '+' || sg = '-') && (ds.length = 1 || ds.length = 2) && ds.all isDigitCh then
      some (sg, ds)
    else none
  | _ => none

/-- Shallow embedding of the time-zone offset parsing block of
Application.start_processing (gui.py lines 507-516): strip and
uppercase the entry text, match the anchored regex, apply the sign, and
reject any magnitude of 24 or more.  A none result models the raised
ValueError. -/
def parse_tz_offset (s : List Char) : Option Int :=
  match tzShape (pyUpper (pyStrip s)) with
  | none => none
  | some (sg, ds) =>
    let v : Int := digitsToNat ds
    let off := if sg = '+' then v else -v
    if 24 ≤ off.natAbs then none else some off

/-- The acceptance language exactly as claim C8 states it, with no
normalisation: the string itself consists of UTC, a sign, and one or
two digits whose value is below 24. -/
def tzClaimAccepts (s : List Char) : Bool :=
  match tzShape s with
  | some (_, ds) => digitsToNat ds < 24
  | none => false

/-! ## Theorems for claim C8 -/

/-- Claim C8, counterexample to the claim as stated: the validator
accepts the lowercase string utc+8 (the code uppercases its input
before matching), which is not among the strings the claim says are
exactly the accepted ones. -/
theorem C8_counterexample :
    parse_tz_offset (String.toList "utc+8") = some 8
    ∧ tzClaimAccepts (String.toList "utc+8") = false := by decide

/-- Claim C8 (amended): the validator accepts exactly the strings that,
after stripping surrounding whitespace and uppercasing, consist of UTC,
a sign, and one or two digits whose absolute value is less than 24, and
signals a validation error on everything else, never clamping; in
particular it accepts UTC+8, UTC-05 and UTC+10 and rejects UTC+25,
GMT+3 and bare UTC. -/
theorem C8_offset_validator :
    (∀ s : List Char, (parse_tz_offset s).isSome = tzClaimAccepts (pyUpper (pyStrip s)))
    ∧ parse_tz_offset (String.toList "UTC+8") = some 8
    ∧ parse_tz_offset (String.toList "UTC-05") = some (-5)
    ∧ parse_tz_offset (String.toList "UTC+10") = some 10
    ∧ parse_tz_offset (String.toList "UTC+25") = none
    ∧ parse_tz_offset (String.toList "GMT+3") = none
    ∧ parse_tz_offset (String.toList "UTC") = none := by
  refine ⟨?_, by decide, by decide, by decide, by decide, by decide, by decide⟩
  intro s
  unfold parse_tz_offset tzClaimAccepts
  cases h : tzShape (pyUpper (pyStrip s)) with
  | none => simp
  | some pr =>
    obtain ⟨sg, ds⟩ := pr
    simp only
    have habs : (if sg = '+' then (digitsToNat ds : Int) else -(digitsToNat ds : Int)).natAbs
        = digitsToNat ds := by
      by_cases hsg : sg = '+' <;> simp [hsg]
    by_cases hlt : 24 ≤ (if sg = '+' then (digitsToNat ds : Int) else -(digitsToNat ds : Int)).natAbs
    · rw [if_pos hlt]
      rw [habs] at hlt
      simp [Nat.not_lt.mpr hlt]
    · rw [if_neg hlt]
      rw [habs] at hlt
      simp [Nat.lt_of_not_le hlt]

/-! ## Output path derivation (processor.py lines 401 and 434):
str.replace of every occurrence -/

/-- Worker for replaceAll, structurally recursive on a fuel bound that
is always at least the length of the list, so that it reduces inside
the kernel. -/
def replaceAllAux (pat rep : List Char) : Nat → List Char → List Char
  | _, [] => []
  | 0, l => l
  | fuel + 1, c :: cs =>
    if pat.isPrefixOf (c :: cs) && !pat.isEmpty then
      rep ++ replaceAllAux pat rep fuel ((c :: cs).drop pat.length)
    else c :: replaceAllAux pat rep fuel cs

/-- Python str.replace(pat, rep): replace every non-overlapping
occurrence of pat, scanning left to right. -/
def replaceAll (pat rep s : List Char) : List Char := replaceAllAux pat rep s.length s

theorem replaceAllAux_fuel_irrel (pat rep : List Char) :
    ∀ (f₁ : Nat) (l : List Char) (f₂ : Nat), l.length ≤ f₁ → l.length ≤ f₂ →
      replaceAllAux pat rep f₁ l = replaceAllAux pat rep f₂ l := by
  intro f₁
  induction f₁ with
  | zero =>
    intro l f₂ h1 _
    have : l = [] := List.length_eq_zero.mp (Nat.le_zero.mp h1)
    subst this
    cases f₂ <;> rfl
  | succ f ih =>
    intro l f₂ h1 h2
    cases l with
    | nil => cases f₂ <;> rfl
    | cons c cs =>
      cases f₂ with
      | zero => exact absurd h2 (by simp)
      | succ f₂' =>
        rw [replaceAllAux, replaceAllAux]
        have hcs1 : cs.length ≤ f := by simpa using h1
        have hcs2 : cs.length ≤ f₂' := by simpa using h2
        by_cases hp : (pat.isPrefixOf (c :: cs) && !pat.isEmpty) = true
        · rw [if_pos hp, if_pos hp]
          have hpat : 1 ≤ pat.length := by
            rcases pat with _ | ⟨p, ps⟩
            · simp at hp
            · simp
          have hd : ((c :: cs).drop pat.length).length ≤ cs.length := by
            simp only [List.length_drop, List.length_cons]
            omega
          rw [ih ((c :: cs).drop pat.length) f₂' (le_trans hd hcs1) (le_trans hd hcs2)]
        · rw [if_neg hp, if_neg hp]
          rw [ih cs f₂' hcs1 hcs2]

theorem replaceAll_nil (pat rep : List Char) : replaceAll pat rep [] = [] := rfl

theorem replaceAll_cons_pos (pat rep : List Char) (c : Char) (cs : List Char)
    (h : (pat.isPrefixOf (c :: cs) && !pat.isEmpty) = true) :
    replaceAll pat rep (c :: cs) = rep ++ replaceAll pat rep ((c :: cs).drop pat.length) := by
  show replaceAllAux pat rep (cs.length + 1) (c :: cs) = _
  rw [replaceAllAux, if_pos h]
  unfold replaceAll
  congr 1
  apply replaceAllAux_fuel_irrel
  · have hpat : 1 ≤ pat.length := by
      rcases pat with _ | ⟨p, ps⟩
      · simp at h
      · simp
    simp only [List.length_drop, List.length_cons]
    omega
  · exact le_refl _

theorem replaceAll_cons_neg (pat rep : List Char) (c : Char) (cs : List Char)
    (h : (pat.isPrefixOf (c :: cs) && !pat.isEmpty) = false) :
    replaceAll pat rep (c :: cs) = c :: replaceAll pat rep cs := by
  show replaceAllAux pat rep (cs.length + 1) (c :: cs) = _
  rw [replaceAllAux, if_neg (by simp [h])]
  rfl

/-- The lowercase source extension .wav. -/
def wavExt : List Char := ['.', 'w', 'a', 'v']

/-- The uppercase source extension .WAV. -/
def wavExtU : List Char := ['.', 'W', 'A', 'V']

/-- The target extension .flac. -/
def flacExt : List Char := ['.', 'f', 'l', 'a', 'c']

/-- The target extension .mseed. -/
def mseedExt : List Char := ['.', 'm', 's', 'e', 'e', 'd']

/-- FLAC output path (processor.py line 401):
file_path.replace(.wav, .flac).replace(.WAV, .flac). -/
def flacOutputPath (p : String) : String :=
  ⟨replaceAll wavExtU flacExt (replaceAll wavExt flacExt p.toList)⟩

/-- MiniSEED output path (processor.py line 434):
file_path.replace(.wav, .mseed).replace(.WAV, .mseed). -/
def mseedOutputPath (p : String) : String :=
  ⟨replaceAll wavExtU mseedExt (replaceAll wavExt mseedExt p.toList)⟩

/-- True when the list contains no dot, so no extension pattern can
start inside it. -/
def noDot (cs : List Char) : Bool := cs.all (fun c => c != '.')

theorem isPrefixOf_append_self (l t : List Char) : l.isPrefixOf (l ++ t) = true := by
  induction l with
  | nil => simp [List.isPrefixOf]
  | cons c cs ih => simp [List.isPrefixOf, ih]

theorem replaceAll_cons_clean (p' rep : List Char) (c : Char) (cs : List Char) (hc : c ≠ '.') :
    replaceAll ('.' :: p') rep (c :: cs) = c :: replaceAll ('.' :: p') rep cs := by
  apply replaceAll_cons_neg
  have : (('.' :: p').isPrefixOf (c :: cs)) = false := by
    simp only [List.isPrefixOf]
    have : ('.' == c) = false := by
      cases h : ('.' == c)
      · rfl
      · exact absurd (beq_iff_eq.mp h).symm hc
    simp [this]
  simp [this]

theorem replaceAll_clean_append (p' rep : List Char) :
    ∀ a s : List Char, noDot a = true →
      replaceAll ('.' :: p') rep (a ++ s) = a ++ replaceAll ('.' :: p') rep s := by
  intro a
  induction a with
  | nil => intro s _; rfl
  | cons c a' ih =>
    intro s h
    have hc : c ≠ '.' := by
      simp [noDot] at h
      exact h.1
    have h' : noDot a' = true := by
      simp [noDot] at h ⊢
      exact h.2
    rw [List.cons_append, replaceAll_cons_clean _ _ _ _ hc, ih s h', List.cons_append]

theorem replaceAll_clean_id (p' rep : List Char) (a : List Char) (h : noDot a = true) :
    replaceAll ('.' :: p') rep a = a := by
  have h2 := replaceAll_clean_append p' rep a [] h
  rw [List.append_nil] at h2
  rw [h2, replaceAll_nil, List.append_nil]

theorem replaceAll_pat_head (p' rep s : List Char) :
    replaceAll ('.' :: p') rep (('.' :: p') ++ s) = rep ++ replaceAll ('.' :: p') rep s := by
  rw [List.cons_append, replaceAll_cons_pos]
  · congr 1
    rw [show (('.' :: (p' ++ s)).drop ('.' :: p').length) = s by
      simp only [List.length_cons]
      rw [List.drop_succ_cons]
      exact List.drop_left p' s]
  · rw [show ('.' :: (p' ++ s)) = ('.' :: p') ++ s by simp]
    simp [isPrefixOf_append_self]

/-- True when somewhere in the list a dot is immediately followed by
the character w; when false for w = W, the .WAV replacement pass cannot
match anywhere. -/
def hasDotThen (w : Char) : List Char → Bool
  | [] => false
  | [_] => false
  | a :: b :: rest => (a == '.' && b == w) || hasDotThen w (b :: rest)

theorem hasDotThen_cons_of_ne (w c : Char) (t : List Char) (hc : c ≠ '.') :
    hasDotThen w (c :: t) = hasDotThen w t := by
  cases t with
  | nil => rfl
  | cons d t' =>
    have : (c == '.') = false := by
      cases h : (c == '.')
      · rfl
      · exact absurd (beq_iff_eq.mp h) hc
    simp [hasDotThen, this]

theorem hasDotThen_cons_dot (w b : Char) (t : List Char) (hb : (b == w) = false) :
    hasDotThen w ('.' :: b :: t) = hasDotThen w (b :: t) := by
  simp [hasDotThen, hb]

theorem hasDotThen_clean (w : Char) : ∀ a : List Char, noDot a = true → hasDotThen w a = false := by
  intro a
  induction a with
  | nil => intro _; rfl
  | cons c a' ih =>
    intro h
    have hc : c ≠ '.' := by simp [noDot] at h; exact h.1
    have h' : noDot a' = true := by simp [noDot] at h ⊢; exact h.2
    rw [hasDotThen_cons_of_ne w c a' hc]
    exact ih h'

theorem hasDotThen_clean_append (w : Char) (a s : List Char) (h : noDot a = true) :
    hasDotThen w (a ++ s) = hasDotThen w s := by
  induction a with
  | nil => rfl
  | cons c a' ih =>
    have hc : c ≠ '.' := by simp [noDot] at h; exact h.1
    have h' : noDot a' = true := by simp [noDot] at h ⊢; exact h.2
    rw [List.cons_append, hasDotThen_cons_of_ne w c _ hc]
    exact ih h'

theorem replaceAll_no_dot_w (w : Char) (pr rep : List Char) :
    ∀ s : List Char, hasDotThen w s = false → replaceAll ('.' :: w :: pr) rep s = s
  | [] => fun _ => rfl
  | [c] => fun _ => by
    by_cases hc : c = '.'
    · subst hc
      rw [replaceAll_cons_neg]
      · rfl
      · simp [List.isPrefixOf]
    · rw [replaceAll_cons_clean _ _ _ _ hc]
      rfl
  | a :: b :: rest => fun h => by
    by_cases ha : a = '.'
    · subst ha
      have hb : (b == w) = false := by
        cases hbw : (b == w)
        · rfl
        · exfalso
          rw [hasDotThen] at h
          simp [hbw] at h
      rw [replaceAll_cons_neg]
      · rw [replaceAll_no_dot_w w pr rep (b :: rest) (by
          rw [hasDotThen_cons_dot w b rest hb] at h
          exact h)]
      · have hbw2 : b ≠ w := fun he => by rw [he] at hb; simp at hb
        have hwb : (w == b) = false := by
          cases h' : (w == b)
          · rfl
          · exact absurd (beq_iff_eq.mp h').symm hbw2
        simp only [List.isPrefixOf]
        simp [hwb]
    · rw [replaceAll_cons_clean _ _ _ _ ha]
      rw [replaceAll_no_dot_w w pr rep (b :: rest) (by
        rw [hasDotThen_cons_of_ne w a _ ha] at h
        exact h)]
termination_by s => s.length

/-- The two-pass extension rewrite of the source, for a replacement
extension whose first letter is not W: replacing .wav and then .WAV in
a path built from dot-free segments around two .wav occurrences
rewrites both occurrences and nothing else. -/
theorem replace_wav_twice (r1 : Char) (rr : List Char)
    (hr1 : (r1 == 'W') = false) (hrr : noDot (r1 :: rr) = true)
    (a1 a2 a3 : List Char)
    (h1 : noDot a1 = true) (h2 : noDot a2 = true) (h3 : noDot a3 = true) :
    replaceAll wavExtU ('.' :: r1 :: rr)
        (replaceAll wavExt ('.' :: r1 :: rr) (a1 ++ wavExt ++ a2 ++ wavExt ++ a3))
      = a1 ++ ('.' :: r1 :: rr) ++ a2 ++ ('.' :: r1 :: rr) ++ a3 := by
  have hfirst : replaceAll wavExt ('.' :: r1 :: rr) (a1 ++ wavExt ++ a2 ++ wavExt ++ a3)
      = a1 ++ ('.' :: r1 :: rr) ++ a2 ++ ('.' :: r1 :: rr) ++ a3 := by
    have e1 : a1 ++ wavExt ++ a2 ++ wavExt ++ a3
        = a1 ++ (wavExt ++ (a2 ++ (wavExt ++ a3))) := by
      simp [List.append_assoc]
    rw [e1]
    rw [show wavExt = '.' :: ['w','a','v'] from rfl]
    rw [replaceAll_clean_append _ _ _ _ h1]
    rw [replaceAll_pat_head]
    rw [replaceAll_clean_append _ _ _ _ h2]
    rw [replaceAll_pat_head]
    rw [replaceAll_clean_id _ _ _ h3]
    simp [List.append_assoc]
  rw [hfirst]
  have hclean : hasDotThen 'W' (a1 ++ ('.' :: r1 :: rr) ++ a2 ++ ('.' :: r1 :: rr) ++ a3)
      = false := by
    have e2 : a1 ++ ('.' :: r1 :: rr) ++ a2 ++ ('.' :: r1 :: rr) ++ a3
        = a1 ++ ('.' :: ((r1 :: rr) ++ (a2 ++ ('.' :: ((r1 :: rr) ++ a3))))) := by
      simp [List.append_assoc]
    rw [e2]
    rw [hasDotThen_clean_append _ _ _ h1]
    rw [show ('.' :: ((r1 :: rr) ++ (a2 ++ ('.' :: ((r1 :: rr) ++ a3)))))
        = '.' :: r1 :: (rr ++ (a2 ++ ('.' :: ((r1 :: rr) ++ a3)))) from rfl]
    rw [hasDotThen_cons_dot _ _ _ hr1]
    rw [show r1 :: (rr ++ (a2 ++ ('.' :: ((r1 :: rr) ++ a3))))
        = (r1 :: rr) ++ (a2 ++ ('.' :: ((r1 :: rr) ++ a3))) from rfl]
    rw [hasDotThen_clean_append _ _ _ hrr]
    rw [hasDotThen_clean_append _ _ _ h2]
    rw [show ('.' :: ((r1 :: rr) ++ a3)) = '.' :: r1 :: (rr ++ a3) from rfl]
    rw [hasDotThen_cons_dot _ _ _ hr1]
    rw [show r1 :: (rr ++ a3) = (r1 :: rr) ++ a3 from rfl]
    rw [hasDotThen_clean_append _ _ _ hrr]
    exact hasDotThen_clean 'W' a3 h3
  rw [show wavExtU = '.' :: 'W' :: ['A','V'] from rfl]
  rw [replaceAll_no_dot_w 'W' ['A','V'] _ _ hclean]

/-! ## Theorems for claim C10 -/

/-- Claim C10: the FLAC and MiniSEED output paths are derived by
substring replacement of every occurrence of .wav (then .WAV) in the
entire input path, not by replacing only the final extension: in a path
made of dot-free segments around two .wav occurrences - one inside a
directory name, one final - both occurrences are rewritten to .flac
and .mseed respectively. -/
theorem C10_replace_every_occurrence (a1 a2 a3 : List Char)
    (h1 : noDot a1 = true) (h2 : noDot a2 = true) (h3 : noDot a3 = true) :
    flacOutputPath ⟨a1 ++ wavExt ++ a2 ++ wavExt ++ a3⟩
      = ⟨a1 ++ flacExt ++ a2 ++ flacExt ++ a3⟩
    ∧ mseedOutputPath ⟨a1 ++ wavExt ++ a2 ++ wavExt ++ a3⟩
      = ⟨a1 ++ mseedExt ++ a2 ++ mseedExt ++ a3⟩ := by
  constructor
  · unfold flacOutputPath
    congr 1
    have := replace_wav_twice 'f' ['l','a','c'] (by decide) (by decide) a1 a2 a3 h1 h2 h3
    exact this
  · unfold mseedOutputPath
    congr 1
    have := replace_wav_twice 'm' ['s','e','e','d'] (by decide) (by decide) a1 a2 a3 h1 h2 h3
    exact this

/-- Claim C10, witness: a concrete path with .wav both inside a
directory name and as the final extension is fully rewritten, directing
the artifacts into a sibling .flac and .mseed directory. -/
theorem C10_witness :
    flacOutputPath "/data.wav/rec.wav" = "/data.flac/rec.flac"
    ∧ mseedOutputPath "/data.wav/rec.wav" = "/data.mseed/rec.mseed" := by
  have h := C10_replace_every_occurrence (String.toList "/data") (String.toList "/rec") []
    (by decide) (by decide) (by decide)
  exact ⟨h.1, h.2⟩

/-! ## Per-file processing effects: AudioProcessor.process_wav_file
(processor.py lines 366-409) -/

/-- The errors process_wav_file can raise, in the order the code checks
or encounters them: sample-rate validation inside get_wav_info
(processor.py line 152), the duration guard (line 373, also the
identical guard reached through extract_times_from_wav at line 206),
and failures of the two external steps convert_wav_to_flac and
add_metadata_to_flac. -/
inductive ProcErr where
  | rateOutOfRange
  | durationTooLong
  | convertFailed
  | tagFailed
deriving DecidableEq

/-- Outcome of one process_wav_file call: the raised error if any, and
the files on disk afterwards. -/
structure ProcResult where
  err : Option ProcErr
  files : List String
deriving DecidableEq

/-- Shallow embedding of the effects of AudioProcessor.process_wav_file
(processor.py lines 366-409) on the file system, as a function of the
input length and rate, the outcome of the two fallible external steps
(FLAC conversion and metadata tagging), and the files fs already on
disk.  The order of events is that of the source: validate the rate,
validate the duration, write the temporary WAV, convert it to FLAC at
the derived output path, tag the FLAC, and only then - with no
try/finally - remove the temporary file. -/
def process_wav_file (sampleCount rate : Nat) (filePath tempPath : String)
    (convertOk tagOk : Bool) (fs : List String) : ProcResult :=
  if rate < 8000 ∨ 400000 < rate then ⟨some .rateOutOfRange, fs⟩
  else if 86400 * rate < sampleCount then ⟨some .durationTooLong, fs⟩
  else
    let fs1 := tempPath :: fs
    if convertOk = false then ⟨some .convertFailed, fs1⟩
    else
      let fs2 := flacOutputPath filePath :: fs1
      if tagOk = false then ⟨some .tagFailed, fs2⟩
      else ⟨none, fs2.erase tempPath⟩

/-! ## Theorems for claims C6 and C9 -/

/-- Claim C6, counterexample to the claim as stated: when metadata
tagging fails, process_wav_file raises and the temporary WAV file is
still on disk - there is no try/finally around the cleanup, so the
failure paths leak the temporary file. -/
theorem C6_counterexample :
    (process_wav_file 4800 48000 "a.wav" "tmp1.wav" true false []).err = some ProcErr.tagFailed
    ∧ "tmp1.wav" ∈ (process_wav_file 4800 48000 "a.wav" "tmp1.wav" true false []).files := by
  decide

/-- Claim C6 (amended): the temporary intermediate WAV file is removed
before the pipeline moves on only on the success path; on the failure
paths where the FLAC conversion or the metadata tagging raises, the
temporary file is left behind. -/
theorem C6_temp_cleanup (n rate : Nat) (fp tmp : String) (convertOk tagOk : Bool)
    (fs : List String) (htmp : tmp ∉ fs) (hflac : tmp ≠ flacOutputPath fp) :
    ((process_wav_file n rate fp tmp convertOk tagOk fs).err = none →
        tmp ∉ (process_wav_file n rate fp tmp convertOk tagOk fs).files)
    ∧ (((process_wav_file n rate fp tmp convertOk tagOk fs).err = some ProcErr.convertFailed
        ∨ (process_wav_file n rate fp tmp convertOk tagOk fs).err = some ProcErr.tagFailed) →
        tmp ∈ (process_wav_file n rate fp tmp convertOk tagOk fs).files) := by
  unfold process_wav_file
  by_cases h1 : rate < 8000 ∨ 400000 < rate
  · simp [h1]
  · by_cases h2 : 86400 * rate < n
    · simp [h1, h2]
    · by_cases h3 : convertOk = false
      · simp [h1, h2, h3]
      · by_cases h4 : tagOk = false
        · simp [h1, h2, h3, h4]
        · simp [h1, h2, h3, h4]
          rw [List.erase_cons]
          have hbe2 : (flacOutputPath fp == tmp) = false := by
            cases hbe : (flacOutputPath fp == tmp)
            · rfl
            · exact absurd (beq_iff_eq.mp hbe).symm hflac
          rw [if_neg (by simp [hbe2])]
          rw [List.erase_cons_head]
          intro hmem
          rcases List.mem_cons.mp hmem with h | h
          · exact hflac h
          · exact htmp h

/-- Claim C6, witness: on a successful run the temporary file is gone
afterwards. -/
theorem C6_witness :
    "tmp1.wav" ∉ (process_wav_file 4800 48000 "a.wav" "tmp1.wav" true true []).files := by
  have h := C6_temp_cleanup 4800 48000 "a.wav" "tmp1.wav" true true [] (by decide) (by decide)
  exact h.1 (by decide)

/-- Claim C9: a file whose duration in seconds (samples over rate)
exceeds 86400 is rejected with a validation error before any artifact
is produced - the files on disk are unchanged - while a file whose
duration is at most 86400 seconds passes the duration check (whatever
else may still fail for it, it is never the duration error). -/
theorem C9_duration_guard (n rate : Nat) (fp tmp : String) (convertOk tagOk : Bool)
    (fs : List String) :
    (86400 * rate < n →
        (process_wav_file n rate fp tmp convertOk tagOk fs).err ≠ none
        ∧ (process_wav_file n rate fp tmp convertOk tagOk fs).files = fs)
    ∧ (n ≤ 86400 * rate →
        (process_wav_file n rate fp tmp convertOk tagOk fs).err ≠ some ProcErr.durationTooLong) := by
  unfold process_wav_file
  by_cases h1 : rate < 8000 ∨ 400000 < rate
  · simp [h1]
  · by_cases h2 : 86400 * rate < n
    · simp [h1, h2]
    · by_cases h3 : convertOk = false
      · simp [h1, h2, h3]
      · by_cases h4 : tagOk = false
        · simp [h1, h2, h3, h4]
        · simp [h1, h2, h3, h4]

/-- Claim C9, witness: a file one sample longer than one day at
48000 Hz is rejected with an error and produces no artifacts, and a
one-day file passes the duration check. -/
theorem C9_witness :
    ((process_wav_file (86400 * 48000 + 1) 48000 "b.wav" "tmp2.wav" true true []).err ≠ none
      ∧ (process_wav_file (86400 * 48000 + 1) 48000 "b.wav" "tmp2.wav" true true []).files = [])
    ∧ (process_wav_file (86400 * 48000) 48000 "b.wav" "tmp2.wav" true true []).err
        ≠ some ProcErr.durationTooLong := by
  constructor
  · exact (C9_duration_guard (86400 * 48000 + 1) 48000 "b.wav" "tmp2.wav" true true []).1
      (Nat.lt_succ_self _)
  · exact (C9_duration_guard (86400 * 48000) 48000 "b.wav" "tmp2.wav" true true []).2
      (le_refl _)

/-! ## Batch orchestration: AudioProcessor.process_files
(processor.py lines 411-459) -/

/-- The console reports process_files emits, in order: the per-file
progress line, the per-file success report, the per-file error report
with the file identity and the error description, and the final
summary with the success count, the attempt count and the elapsed
wall-clock time. -/
inductive LogEntry where
  | analyzing (idx total : Nat) (name : String)
  | created (file : String)
  | fileError (file msg : String)
  | summary (succeeded total : Nat) (elapsed : String)
deriving DecidableEq

/-- Zero-padded two-digit rendering of a field of strftime. -/
def pad2 (n : Nat) : String := if n < 10 then "0" ++ toString n else toString n

/-- time.strftime of %H:%M:%S applied to time.gmtime(t) as at
processor.py line 457 (the hour field wraps at 24 as gmtime does). -/
def formatHMS (t : Nat) : String :=
  pad2 (t / 3600 % 24) ++ ":" ++ pad2 (t % 3600 / 60) ++ ":" ++ pad2 (t % 60)

/-- Whether a per-file outcome is a success. -/
def stepOk (e : Except String Unit) : Bool :=
  match e with
  | .ok _ => true
  | .error _ => false

/-- The per-file loop of process_files (processor.py lines 421-454):
one iteration per file in order, a try/except around the whole body so
an error is logged with the file and the loop continues, and a success
counter incremented on the success path only.  The whole per-file body
(FLAC, MiniSEED, StationXML) is abstracted as the fallible step
function. -/
def batchLoop (step : String → Except String Unit) (total : Nat) :
    Nat → List String → List LogEntry × Nat
  | _, [] => ([], 0)
  | idx, f :: rest =>
    let tail := batchLoop step total (idx + 1) rest
    match step f with
    | .ok _ => (LogEntry.analyzing (idx + 1) total f :: LogEntry.created f :: tail.1, tail.2 + 1)
    | .error e => (LogEntry.analyzing (idx + 1) total f :: LogEntry.fileError f e :: tail.1, tail.2)

/-- Shallow embedding of AudioProcessor.process_files (processor.py
lines 411-459): run the loop over all files, then report the summary
with the success count, the total and the elapsed time.  Returns the
log, the success count and the total. -/
def process_files (step : String → Except String Unit) (files : List String) (elapsed : Nat) :
    List LogEntry × Nat × Nat :=
  let r := batchLoop step files.length 0 files
  (r.1 ++ [LogEntry.summary r.2 files.length (formatHMS elapsed)], r.2, files.length)

theorem batchLoop_count (step : String → Except String Unit) (total : Nat) :
    ∀ (files : List String) (idx : Nat),
      (batchLoop step total idx files).2 = (files.filter (fun f => stepOk (step f))).length := by
  intro files
  induction files with
  | nil => intro idx; rfl
  | cons f rest ih =>
    intro idx
    rw [batchLoop]
    cases h : step f with
    | ok u => simp [h, ih (idx + 1), List.filter, stepOk]
    | error e => simp [h, ih (idx + 1), List.filter, stepOk]

theorem batchLoop_mem (step : String → Except String Unit) (total : Nat) :
    ∀ (files : List String) (idx : Nat) (f : String), f ∈ files →
      (stepOk (step f) = true → LogEntry.created f ∈ (batchLoop step total idx files).1)
      ∧ (∀ e, step f = .error e → LogEntry.fileError f e ∈ (batchLoop step total idx files).1) := by
  intro files
  induction files with
  | nil => intro idx f hf; exact absurd hf (by simp)
  | cons g rest ih =>
    intro idx f hf
    rw [batchLoop]
    rcases List.mem_cons.mp hf with he | hm
    · subst he
      cases h : step f with
      | ok u =>
        constructor
        · intro _; simp
        · intro e hmatch; exact absurd hmatch (by simp)
      | error e =>
        constructor
        · intro hok; simp [stepOk] at hok
        · intro e2 hmatch
          have : e = e2 := by injection hmatch
          subst this
          simp
    · have := ih (idx + 1) f hm
      cases h : step g with
      | ok u =>
        refine ⟨fun hs => ?_, fun e he => ?_⟩
        · simp only [List.mem_cons]
          exact Or.inr (Or.inr ((this.1) hs))
        · simp only [List.mem_cons]
          exact Or.inr (Or.inr ((this.2) e he))
      | error e0 =>
        refine ⟨fun hs => ?_, fun e he => ?_⟩
        · simp only [List.mem_cons]
          exact Or.inr (Or.inr ((this.1) hs))
        · simp only [List.mem_cons]
          exact Or.inr (Or.inr ((this.2) e he))

/-! ## Theorem for claim C7 -/

/-- Claim C7: for every batch and every per-file behaviour, the
orchestrator attempts every file - a failing file contributes an error
report naming the file and the error description and the batch
continues - the success count is exactly the number of files whose
processing succeeded, and the batch always concludes with a summary
report of total succeeded out of total attempted plus the elapsed
wall-clock time formatted HH:MM:SS. -/
theorem C7_batch_orchestration (step : String → Except String Unit) (files : List String)
    (elapsed : Nat) :
    (process_files step files elapsed).2.2 = files.length
    ∧ (process_files step files elapsed).2.1
        = (files.filter (fun f => stepOk (step f))).length
    ∧ (process_files step files elapsed).1.getLast?
        = some (LogEntry.summary (process_files step files elapsed).2.1 files.length
            (formatHMS elapsed))
    ∧ ∀ f ∈ files,
        (stepOk (step f) = true → LogEntry.created f ∈ (process_files step files elapsed).1)
        ∧ (∀ e, step f = .error e →
            LogEntry.fileError f e ∈ (process_files step files elapsed).1) := by
  refine ⟨rfl, ?_, ?_, ?_⟩
  · exact batchLoop_count step files.length files 0
  · unfold process_files
    simp only [List.getLast?_concat]
  · intro f hf
    have h := batchLoop_mem step files.length files 0 f hf
    unfold process_files
    refine ⟨fun hs => ?_, fun e he => ?_⟩
    · simp only [List.mem_append]
      exact Or.inl (h.1 hs)
    · simp only [List.mem_append]
      exact Or.inl (h.2 e he)

/-- A concrete per-file behaviour for the C7 witness: one file fails
with the message boom, every other file succeeds. -/
def stepEx (f : String) : Except String Unit :=
  if f == "bad.wav" then .error "boom" else .ok ()

/-- Claim C7, witness: a two-file batch with one failure concludes with
the summary one succeeded out of two attempted after one hour, one
minute and one second, and the failing file got an error report naming
it and the error. -/
theorem C7_witness :
    (process_files stepEx ["good.wav", "bad.wav"] 3661).1.getLast?
      = some (LogEntry.summary 1 2 "01:01:01")
    ∧ LogEntry.fileError "bad.wav" "boom"
        ∈ (process_files stepEx ["good.wav", "bad.wav"] 3661).1 := by
  have h := C7_batch_orchestration stepEx ["good.wav", "bad.wav"] 3661
  refine ⟨?_, ?_⟩
  · exact h.2.2.1
  · exact (h.2.2.2 "bad.wav" (by decide)).2 "boom" rfl

/-! ## Compliance document builder: the lxml post-processing of
generate_stationxml_obspy (processor.py lines 307-346) -/

/-- An XML element: tag, text content, child elements.  Attributes play
no role in the rewrite and are omitted. -/
inductive XmlNode where
  | mk (tag : String) (text : String) (children : List XmlNode)

def XmlNode.tag : XmlNode → String | .mk t _ _ => t
def XmlNode.text : XmlNode → String | .mk _ x _ => x
def XmlNode.children : XmlNode → List XmlNode | .mk _ _ c => c

/-- lxml find of a direct child by tag (namespace-qualified lookups in
the source apply one uniform prefix, so tags are compared plainly). -/
def findTag (tg : String) (cs : List XmlNode) : Option XmlNode :=
  cs.find? (fun c => c.tag == tg)

/-- Index of the first direct child with the given tag, as computed by
list(root).index(el) after a find. -/
def findTagIdx (tg : String) (cs : List XmlNode) : Option Nat :=
  cs.findIdx? (fun c => c.tag == tg)

/-- Set the text of the first child carrying the tag, as assigning to
el.text does for the element a find returned. -/
def setTextFirstTag (tg txt : String) : List XmlNode → List XmlNode
  | [] => []
  | c :: cs =>
    if c.tag == tg then XmlNode.mk c.tag txt c.children :: cs
    else c :: setTextFirstTag tg txt cs

/-- element.insert(i, n): insert a child at a position. -/
def insertAt (i : Nat) (n : XmlNode) (cs : List XmlNode) : List XmlNode :=
  cs.take i ++ n :: cs.drop i

/-- The Source block of generate_stationxml_obspy (processor.py lines
313-320).  The lxml truthiness quirk of the source is preserved: a
found Source element counts only when it has child elements (an
element with no children is falsy in the or-expression at line 316),
otherwise a fresh Source element is created, and that fresh element is
inserted only when a Sender element was found at line 314. -/
def sourceStep (source : String) (root : XmlNode) : XmlNode :=
  if source == "" then root
  else
    match findTag "Source" root.children with
    | some el =>
      if el.children.isEmpty then
        match findTagIdx "Sender" root.children with
        | some i =>
          XmlNode.mk root.tag root.text (insertAt i (XmlNode.mk "Source" source []) root.children)
        | none => root
      else XmlNode.mk root.tag root.text (setTextFirstTag "Source" source root.children)
    | none =>
      match findTagIdx "Sender" root.children with
      | some i =>
        XmlNode.mk root.tag root.text (insertAt i (XmlNode.mk "Source" source []) root.children)
      | none => root

mutual
/-- The EndDate removal of generate_stationxml_obspy (processor.py
lines 328-330): every element tagged EndDate, at any depth below the
root, is removed from its parent. -/
def stripEndDates : XmlNode → XmlNode
  | .mk t x cs => .mk t x (stripEndDatesList cs)
def stripEndDatesList : List XmlNode → List XmlNode
  | [] => []
  | c :: cs =>
    if c.tag == "EndDate" then stripEndDatesList cs
    else stripEndDates c :: stripEndDatesList cs
end

-- predicates
mutual
/-- No element of the tree, the node itself included, is tagged
EndDate. -/
def noEndDateNode : XmlNode → Bool
  | .mk t _ cs => (t != "EndDate") && noEndDateList cs
def noEndDateList : List XmlNode → Bool
  | [] => true
  | c :: cs => noEndDateNode c && noEndDateList cs
end

mutual
theorem noEndDate_strip : ∀ (n : XmlNode), n.tag ≠ "EndDate" → noEndDateNode (stripEndDates n) = true
  | .mk t x cs, h => by
    rw [stripEndDates, noEndDateNode]
    have hl := noEndDate_stripList cs
    simp [XmlNode.tag] at h
    simp [h, hl]
theorem noEndDate_stripList : ∀ (cs : List XmlNode), noEndDateList (stripEndDatesList cs) = true
  | [] => by rw [stripEndDatesList, noEndDateList]
  | c :: cs => by
    rw [stripEndDatesList]
    by_cases h : (c.tag == "EndDate") = true
    · simp only [h, if_true]
      exact noEndDate_stripList cs
    · simp only [h, if_false]
      have h1 := noEndDate_strip c (by simpa using h)
      have h2 := noEndDate_stripList cs
      rw [noEndDateList.eq_def]
      simp [h1, h2]
end

theorem sourceStep_text (s : String) (root : XmlNode) : (sourceStep s root).text = root.text := by
  unfold sourceStep
  by_cases h0 : (s == "") = true
  · rw [if_pos h0]
  · rw [if_neg h0]
    cases h1 : findTag "Source" root.children with
    | some el =>
      by_cases h2 : el.children.isEmpty
      · simp only [h2, if_true]
        cases h3 : findTagIdx "Sender" root.children with
        | some i => rfl
        | none => rfl
      · simp only [h2, Bool.false_eq_true, if_false]
        rfl
    | none =>
      cases h3 : findTagIdx "Sender" root.children with
      | some i => rfl
      | none => rfl

end GeoInquire
